import Mathlib

/-!
# Verification of the blood-sugar dashboard's data core

Shallow embedding of the data-processing core of the `BloodSugarDashboard`
component: the CSV loader's source-selection/fallback logic (`loadCSVData`),
the normalizer (`processedData`: map, validity filter, stable sort by parsed
date, display-label pass), the type partitions (`fastingData`, `randomData`)
and the aggregate statistics (`stats`).

Modelling conventions:
* JavaScript numbers are modelled as exact rationals (`ℚ`); `parseFloat`'s
  possible `NaN` outcome is modelled by `JSNum.nan`.
* `new Date(string)` is modelled by `parseDate`, an ISO `YYYY-MM-DD`
  calendar parser; any other shape is an invalid date (`none`), the model of
  JavaScript's `Invalid Date` (a `NaN` timestamp).
* `Array.prototype.sort` with the comparator `(a, b) => a.date - b.date` is
  modelled as the stable `List.insertionSort` over `jsLe`: for a consistent
  comparator the ECMAScript result is the unique stable sorted permutation,
  which insertion sort over the non-strict order computes.  A comparator
  result of `NaN` (an invalid date on either side) is treated as `0`,
  exactly as the ECMAScript `SortCompare` operation does.
* The loader's `fetch` is modelled as an environment function from URL to
  outcome (promise rejection, or a response carrying `ok`/`status`); the
  loader also returns the list of URLs it attempted, in order.
-/

namespace Dashboard

/-- Result of JavaScript numeric parsing (`parseFloat`/`dynamicTyping`):
either a number (modelled exactly as a rational) or `NaN`. -/
inductive JSNum where
  | num (q : ℚ)
  | nan
deriving DecidableEq

/-- One raw CSV row after Papa-parse (`header: true`): the fields the
component reads.  A missing cell is `none`; `sugarLevel` is the result of
numeric parsing of the cell. -/
structure RawRow where
  date : String
  sugarLevel : JSNum
  type : Option String
  time : Option String
  notes : Option String
deriving DecidableEq

/-- A calendar date, the model of a valid JavaScript `Date`. -/
structure CivilDate where
  year : Nat
  month : Nat
  day : Nat
deriving DecidableEq

/-- One normalized reading, as built by `processedData`. -/
structure Reading where
  id : Nat
  date : Option CivilDate
  dateStr : String
  sugarLevel : ℚ
  type : String
  time : String
  notes : String
  displayDate : String
deriving DecidableEq

/-- `x || 0` applied to a `parseFloat` result: `NaN` (falsy) becomes `0`,
`0` stays `0`, any other number is itself. -/
def jsOr0 : JSNum → ℚ
  | .nan => 0
  | .num q => q

/-- `s || d` for an optional string cell: a missing cell (`undefined`) and
the empty string are falsy and yield the default. -/
def jsOrStr (o : Option String) (d : String) : String :=
  match o with
  | none => d
  | some s => if s = "" then d else s

/-- Gregorian leap-year test. -/
def isLeapYear (y : Nat) : Bool :=
  (y % 4 == 0 && y % 100 != 0) || y % 400 == 0

/-- Number of days in a month of a given year. -/
def daysInMonth (y m : Nat) : Nat :=
  if m = 2 then (if isLeapYear y then 29 else 28)
  else if m = 4 ∨ m = 6 ∨ m = 9 ∨ m = 11 then 30
  else 31

/-- Decimal digit value of a character, `none` for a non-digit. -/
def digitVal? (c : Char) : Option Nat :=
  if '0' ≤ c ∧ c ≤ '9' then some (c.toNat - '0'.toNat) else none

/-- Accumulator loop of decimal parsing. -/
def digitsToNatAux : List Char → Nat → Option Nat
  | [], acc => some acc
  | c :: cs, acc =>
    match digitVal? c with
    | some d => digitsToNatAux cs (acc * 10 + d)
    | none => none

/-- Parse a nonempty all-digit character list as a decimal natural. -/
def digitsToNat? : List Char → Option Nat
  | [] => none
  | l => digitsToNatAux l 0

/-- Split a character list on `'-'` (the field separator of an ISO date),
keeping empty segments, as `String.splitOn "-"` does. -/
def splitDash : List Char → List (List Char)
  | [] => [[]]
  | c :: cs =>
    let r := splitDash cs
    if c = '-' then [] :: r
    else
      match r with
      | [] => [[c]]
      | g :: gs => (c :: g) :: gs

/-- Model of `new Date(row.date)`: ISO `YYYY-MM-DD` calendar parsing
(§4.3 "coerce `date` via standard calendar parsing"); every other shape
yields an invalid date, modelled as `none`. -/
def parseDate (s : String) : Option CivilDate :=
  match (splitDash s.data).map digitsToNat? with
  | [some yn, some mn, some dn] =>
    if 1 ≤ mn ∧ mn ≤ 12 ∧ 1 ≤ dn ∧ dn ≤ daysInMonth yn mn then
      some ⟨yn, mn, dn⟩
    else none
  | _ => none

/-- Short month name, as produced by
`toLocaleDateString('en-US', \x7b month: 'short' \x7d)`. -/
def monthShort : Nat → String
  | 1 => "Jan"
  | 2 => "Feb"
  | 3 => "Mar"
  | 4 => "Apr"
  | 5 => "May"
  | 6 => "Jun"
  | 7 => "Jul"
  | 8 => "Aug"
  | 9 => "Sep"
  | 10 => "Oct"
  | 11 => "Nov"
  | 12 => "Dec"
  | _ => ""

/-- Model of `date.toLocaleDateString('en-US', \x7b month: 'short',
day: 'numeric' \x7d)`; an invalid date formats as `"Invalid Date"`. -/
def dateStrOf : Option CivilDate → String
  | none => "Invalid Date"
  | some d => monthShort d.month ++ " " ++ Nat.repr d.day

/-- Numeric key strictly monotone in calendar order; stands in for the
millisecond timestamp of a valid `Date`. -/
def dateKey (d : CivilDate) : Nat :=
  d.year * 10000 + d.month * 100 + d.day

/-- The sort comparator `(a, b) => a.date - b.date`.  When either date is
invalid the JavaScript subtraction yields `NaN`, which the ECMAScript
`SortCompare` operation coerces to `0`; the model returns `0` directly. -/
def cmpJS (a b : Reading) : Int :=
  match a.date, b.date with
  | some x, some y => (dateKey x : Int) - (dateKey y : Int)
  | _, _ => 0

/-- Non-strict order induced by the comparator: `cmpJS a b ≤ 0`. -/
def jsLe (a b : Reading) : Prop := cmpJS a b ≤ 0

instance : DecidableRel jsLe :=
  fun a b => inferInstanceAs (Decidable (cmpJS a b ≤ 0))

/-- The first (per-row) pass of `processedData`: build one `Reading` from a
raw row and its 0-based index, before any filtering or sorting. -/
def mkReading (p : Nat × RawRow) : Reading :=
  let row := p.2
  let date := parseDate row.date
  { id := p.1
    date := date
    dateStr := dateStrOf date
    sugarLevel := jsOr0 row.sugarLevel
    type := jsOrStr row.type "UNKNOWN"
    time := jsOrStr row.time ""
    notes := jsOrStr row.notes ""
    displayDate := "" }

/-- The second pass of `processedData`: walk the sorted readings keeping a
per-day occurrence count (`dateCounts`); a reading that is not the first
occurrence of its day label gets the time (if nonempty) or the occurrence
counter appended to its display label. -/
def labelPass : (String → Nat) → List Reading → List Reading
  | _, [] => []
  | dateCounts, item :: rest =>
    let c := dateCounts item.dateStr + 1
    let newCounts : String → Nat := fun s => if s = item.dateStr then c else dateCounts s
    let labelled :=
      if 1 < c then
        if item.time ≠ "" then
          { item with displayDate := item.dateStr ++ " (" ++ item.time ++ ")" }
        else
          { item with displayDate := item.dateStr ++ " #" ++ Nat.repr c }
      else { item with displayDate := item.dateStr }
    labelled :: labelPass newCounts rest

/-- The map–filter–sort stage of `processedData`: one reading per raw
row (indexed), rows with non-positive or unparseable `sugarLevel` dropped,
then the stable sort by parsed date. -/
def processedStage (bloodSugarData : List RawRow) : List Reading :=
  List.insertionSort jsLe
    ((bloodSugarData.enum.map mkReading).filter
      (fun item => decide (0 < item.sugarLevel)))

/-- The normalized collection: `[]` for an empty input (the early return),
otherwise the sorted stage with display labels assigned. -/
def processedData (bloodSugarData : List RawRow) : List Reading :=
  if bloodSugarData.length = 0 then []
  else labelPass (fun _ => 0) (processedStage bloodSugarData)

/-- `processedData.filter(d => d.type === 'FASTING')`. -/
def fastingData (bloodSugarData : List RawRow) : List Reading :=
  (processedData bloodSugarData).filter (fun d => decide (d.type = "FASTING"))

/-- `processedData.filter(d => d.type === 'RANDOM')`. -/
def randomData (bloodSugarData : List RawRow) : List Reading :=
  (processedData bloodSugarData).filter (fun d => decide (d.type = "RANDOM"))

/-- One group of the statistics object.  `none` models the `'N/A'`
sentinel; `avg` holds the value whose decimal rendering `toFixed(1)`
produces. -/
structure GroupStats where
  avg : Option ℚ
  max : Option ℚ
  min : Option ℚ
  count : Nat
deriving DecidableEq

/-- The three statistic groups. -/
structure Stats where
  overall : GroupStats
  fasting : GroupStats
  random : GroupStats
deriving DecidableEq

/-- `arr.reduce((a, b) => a + b, 0)`. -/
def jsSum (arr : List ℚ) : ℚ := arr.foldl (· + ·) 0

/-- `Math.max(...arr)`; only ever applied to nonempty lists in `stats`
(`Math.max()` of nothing would be `-Infinity`). -/
def jsMax : List ℚ → ℚ
  | [] => 0
  | x :: r => r.foldl max x

/-- `Math.min(...arr)`; only ever applied to nonempty lists in `stats`. -/
def jsMin : List ℚ → ℚ
  | [] => 0
  | x :: r => r.foldl min x

/-- `x.toFixed(1)` as a rational: the integer `n` minimizing `|n/10 - x|`,
ties resolved to the larger `n` (the ECMAScript rule), divided by 10. -/
def toFixed1 (x : ℚ) : ℚ := (⌊x * 10 + 1 / 2⌋ : ℚ) / 10

/-- The `stats` memo: all-sentinel groups when the normalized collection is
empty, otherwise per-group average/max/min/count with the `'N/A'` sentinel
for the empty fasting/random partitions. -/
def stats (bloodSugarData : List RawRow) : Stats :=
  let pd := processedData bloodSugarData
  if pd.length = 0 then
    { overall := ⟨none, none, none, 0⟩
      fasting := ⟨none, none, none, 0⟩
      random := ⟨none, none, none, 0⟩ }
  else
    let allLevels := pd.map (·.sugarLevel)
    let fastingLevels := (fastingData bloodSugarData).map (·.sugarLevel)
    let randomLevels := (randomData bloodSugarData).map (·.sugarLevel)
    { overall :=
        ⟨some (toFixed1 (jsSum allLevels / (allLevels.length : ℚ))),
         some (jsMax allLevels), some (jsMin allLevels), allLevels.length⟩
      fasting :=
        ⟨if fastingLevels.length ≠ 0 then
            some (toFixed1 (jsSum fastingLevels / (fastingLevels.length : ℚ)))
          else none,
         if fastingLevels.length ≠ 0 then some (jsMax fastingLevels) else none,
         if fastingLevels.length ≠ 0 then some (jsMin fastingLevels) else none,
         fastingLevels.length⟩
      random :=
        ⟨if randomLevels.length ≠ 0 then
            some (toFixed1 (jsSum randomLevels / (randomLevels.length : ℚ)))
          else none,
         if randomLevels.length ≠ 0 then some (jsMax randomLevels) else none,
         if randomLevels.length ≠ 0 then some (jsMin randomLevels) else none,
         randomLevels.length⟩ }

/-- Outcome of one `fetch`: a rejected promise (network failure) or a
response with its `ok` flag, `status`, `statusText` and body text. -/
inductive FetchOutcome where
  | rejected (msg : String)
  | response (ok : Bool) (status : Nat) (statusText : String) (body : String)
deriving DecidableEq

/-- The loader's environment: the optional configured sheet id
(`VITE_GOOGLE_SHEET_ID`) and the outcome of fetching each URL. -/
structure LoadEnv where
  sheetId : Option String
  fetch : String → FetchOutcome

/-- Model of `String.prototype.trim`: strip leading and trailing
whitespace. -/
def jsTrim (s : String) : String :=
  ⟨((s.data.dropWhile (·.isWhitespace)).reverse.dropWhile (·.isWhitespace)).reverse⟩

/-- The fixed local fallback URL. -/
def LOCAL_CSV_URL : String := "/data/bloodsugar-data.csv"

/-- The Google-Sheets CSV export URL for a sheet id. -/
def GOOGLE_SHEET_URL (GOOGLE_SHEET_ID : String) : String :=
  "https://docs.google.com/spreadsheets/d/" ++ GOOGLE_SHEET_ID ++
    "/export?format=csv&gid=0"

/-- Terminal outcome of `loadCSVData`: either `parseCSV(csvData, source)`
was invoked, or `setError` was called with the given message. -/
inductive LoadResult where
  | parsed (csvData : String) (source : String)
  | errorState (message : String)
deriving DecidableEq

/-- The loader: pick the remote URL when a sheet id is configured
(non-blank after trim), otherwise the local URL; a non-OK response from the
remote URL falls back to one local attempt; a thrown/rejected error lands
in the `catch` block.  Also returns the URLs fetched, in order. -/
def loadCSVData (env : LoadEnv) : LoadResult × List String :=
  let idStr := match env.sheetId with
    | some s => s
    | none => "undefined"
  let sheetUrl := GOOGLE_SHEET_URL idStr
  let configured : Bool := match env.sheetId with
    | some s => decide (jsTrim s ≠ "")
    | none => false
  let csvUrl := if configured then sheetUrl else LOCAL_CSV_URL
  match env.fetch csvUrl with
  | .rejected msg =>
    (.errorState ("Error loading CSV file: " ++ msg), [csvUrl])
  | .response ok status statusText body =>
    if ok then
      (.parsed body (if csvUrl = sheetUrl then "Google Sheets" else "local file"),
        [csvUrl])
    else
      if csvUrl = sheetUrl then
        match env.fetch LOCAL_CSV_URL with
        | .rejected msg =>
          (.errorState ("Error loading CSV file: " ++ msg), [csvUrl, LOCAL_CSV_URL])
        | .response ok2 _ _ body2 =>
          if ok2 then
            (.parsed body2 "local file", [csvUrl, LOCAL_CSV_URL])
          else
            (.errorState ("Error loading CSV file: Failed to load CSV file from both Google Sheets and local source. Check console for details."),
              [csvUrl, LOCAL_CSV_URL])
      else
        (.errorState ("Error loading CSV file: Failed to load local CSV file: " ++
            Nat.repr status ++ " " ++ statusText),
          [csvUrl])

/-- The display label a reading at per-day occurrence number `k` (1-based)
receives in `labelPass`. -/
def decorate (x : Reading) (k : Nat) : Reading :=
  if 1 < k then
    if x.time ≠ "" then
      { x with displayDate := x.dateStr ++ " (" ++ x.time ++ ")" }
    else
      { x with displayDate := x.dateStr ++ " #" ++ Nat.repr k }
  else { x with displayDate := x.dateStr }

/-- Occurrence number of position `i` within its day: how many of the first
`i + 1` readings share the day label of the reading at `i`. -/
def occTo (l : List Reading) (i : Nat) : Nat :=
  match l[i]? with
  | none => 0
  | some x => ((l.take (i + 1)).filter (fun y => decide (y.dateStr = x.dateStr))).length

/-- A reading with its (derived) display label reset; readings produced by
`mkReading` are fixed points of this. -/
def stripLabel (r : Reading) : Reading := { r with displayDate := "" }

/-- The sort key of a reading with a valid date; `0` for invalid dates
(only ever used under a validity hypothesis). -/
def keyOf (r : Reading) : Nat :=
  match r.date with
  | some d => dateKey d
  | none => 0

/-- A reading whose raw date parsed to a valid calendar date. -/
def hasValidDate (r : Reading) : Prop := r.date.isSome

/-- Sorted-by-(date, input position) order: strictly earlier date, or the
same date and a strictly smaller original row index.  The stable sort
leaves the collection pairwise in this order when all dates are valid. -/
def lexR (a b : Reading) : Prop :=
  keyOf a < keyOf b ∨ (keyOf a = keyOf b ∧ a.id < b.id)

/-- The decimal digits of a natural number, most significant first;
reference definition used to reason about `Nat.repr`. -/
def decDigits (n : Nat) : List Nat :=
  if n < 10 then [n] else decDigits (n / 10) ++ [n % 10]
decreasing_by exact Nat.div_lt_self (by omega) (by omega)

/-- Numeric value of a decimal digit list, most significant first. -/
def ofDecDigits (l : List Nat) : Nat := l.foldl (fun a d => a * 10 + d) 0

/-- The spec scenario's three-row input: two valid readings on Jan 1 2024
(fasting 95, random 150 at 14:00) and a zero-level row on Jan 2. -/
def sampleRows : List RawRow :=
  [ { date := "2024-01-01", sugarLevel := .num 95, type := some "FASTING",
      time := none, notes := none }
  , { date := "2024-01-01", sugarLevel := .num 150, type := some "RANDOM",
      time := some "14:00", notes := none }
  , { date := "2024-01-02", sugarLevel := .num 0, type := some "FASTING",
      time := none, notes := none } ]

/-- The normalized reading the scenario's first row produces. -/
def sampleR1 : Reading :=
  { id := 0, date := some ⟨2024, 1, 1⟩, dateStr := "Jan 1", sugarLevel := 95,
    type := "FASTING", time := "", notes := "", displayDate := "Jan 1" }

/-- The normalized reading the scenario's second row produces. -/
def sampleR2 : Reading :=
  { id := 1, date := some ⟨2024, 1, 1⟩, dateStr := "Jan 1", sugarLevel := 150,
    type := "RANDOM", time := "14:00", notes := "", displayDate := "Jan 1 (14:00)" }

/-- Three same-day readings of which the second and third carry the same
time of day (a realistic duplicate-export situation). -/
def dupTimeRows : List RawRow :=
  [ { date := "2024-01-01", sugarLevel := .num 100, type := some "FASTING",
      time := none, notes := none }
  , { date := "2024-01-01", sugarLevel := .num 120, type := some "RANDOM",
      time := some "14:00", notes := none }
  , { date := "2024-01-01", sugarLevel := .num 130, type := some "RANDOM",
      time := some "14:00", notes := none } ]

/-- Input whose valid rows arrive in reverse date order with an invalid row
between them: the surviving ids are `2` and `0`. -/
def outOfOrderRows : List RawRow :=
  [ { date := "2024-01-03", sugarLevel := .num 100, type := some "FASTING",
      time := none, notes := none }
  , { date := "2024-01-02", sugarLevel := .num 0, type := some "FASTING",
      time := none, notes := none }
  , { date := "2024-01-01", sugarLevel := .num 110, type := some "RANDOM",
      time := none, notes := none } ]

/-- A single row whose date does not parse but whose sugar level is a
positive number. -/
def badDateRows : List RawRow :=
  [ { date := "not-a-date", sugarLevel := .num 120, type := some "FASTING",
      time := none, notes := none } ]

/-- Environment in which the remote source is configured and every fetch
(remote and local alike) rejects at the network level. -/
def rejectAllEnv : LoadEnv :=
  ⟨some "test-sheet-id", fun _ => .rejected "Failed to fetch"⟩

/-- Environment in which the remote source is configured and both fetches
resolve with non-OK HTTP responses. -/
def notOkEnv : LoadEnv :=
  ⟨some "abc",
   fun url =>
     if url = LOCAL_CSV_URL then .response false 404 "Not Found" ""
     else .response false 403 "Forbidden" ""⟩

/-! ## Decimal representation of naturals

`labelPass` renders the per-day occurrence counter with `Nat.repr`; to
show counter-decorated labels distinct we prove `Nat.repr` injective. -/

theorem toDigitsCore_eq (fuel : Nat) :
    ∀ (n : Nat) (ds : List Char), n < fuel →
      Nat.toDigitsCore 10 fuel n ds = (decDigits n).map Nat.digitChar ++ ds := by
  induction fuel with
  | zero => intro n ds h; omega
  | succ fuel ih =>
    intro n ds h
    by_cases h10 : n / 10 = 0
    · have hn : n < 10 := by omega
      rw [decDigits]
      simp [Nat.toDigitsCore, h10, Nat.mod_eq_of_lt hn, hn]
    · have hge : 10 ≤ n := by omega
      have hlt : n / 10 < fuel := by
        have := Nat.div_lt_self (by omega : 0 < n) (by omega : 1 < 10)
        omega
      rw [decDigits]
      simp only [Nat.toDigitsCore, h10, if_neg h10, if_neg (by omega : ¬ n < 10)]
      rw [ih (n / 10) _ hlt]
      simp

theorem decDigits_lt_ten (n : Nat) : ∀ d ∈ decDigits n, d < 10 := by
  induction n using Nat.strong_induction_on with
  | _ n ih =>
    by_cases hn : n < 10
    · rw [decDigits, if_pos hn]; simpa using hn
    · rw [decDigits, if_neg hn]
      intro d hd
      rcases List.mem_append.mp hd with h | h
      · exact ih (n / 10) (Nat.div_lt_self (by omega) (by omega)) d h
      · simp at h; omega

theorem ofDecDigits_decDigits (n : Nat) : ofDecDigits (decDigits n) = n := by
  induction n using Nat.strong_induction_on with
  | _ n ih =>
    by_cases hn : n < 10
    · rw [decDigits, if_pos hn]
      simp [ofDecDigits]
    · rw [decDigits, if_neg hn]
      have := ih (n / 10) (Nat.div_lt_self (by omega) (by omega))
      simp only [ofDecDigits, List.foldl_append] at this ⊢
      rw [this]
      simp only [List.foldl_cons, List.foldl_nil]
      omega

theorem digitChar_inj_lt :
    ∀ a < 10, ∀ b < 10, Nat.digitChar a = Nat.digitChar b → a = b := by decide

theorem map_digitChar_inj :
    ∀ (l1 l2 : List Nat), (∀ d ∈ l1, d < 10) → (∀ d ∈ l2, d < 10) →
      l1.map Nat.digitChar = l2.map Nat.digitChar → l1 = l2 := by
  intro l1
  induction l1 with
  | nil => intro l2 _ _ h; cases l2 <;> simp_all
  | cons a t ih =>
    intro l2 h1 h2 h
    cases l2 with
    | nil => simp at h
    | cons b t2 =>
      simp only [List.map, List.cons.injEq] at h
      have ha := digitChar_inj_lt a (h1 a (by simp)) b (h2 b (by simp)) h.1
      subst ha
      rw [ih t2 (fun d hd => h1 d (by simp [hd])) (fun d hd => h2 d (by simp [hd])) h.2]

theorem natRepr_inj {m n : Nat} (h : Nat.repr m = Nat.repr n) : m = n := by
  have hd : (Nat.toDigits 10 m) = Nat.toDigits 10 n := congrArg String.data h
  rw [Nat.toDigits, Nat.toDigits,
    toDigitsCore_eq (m + 1) m [] (by omega),
    toDigitsCore_eq (n + 1) n [] (by omega)] at hd
  simp only [List.append_nil] at hd
  have := map_digitChar_inj _ _ (decDigits_lt_ten m) (decDigits_lt_ten n) hd
  have hv := congrArg ofDecDigits this
  rwa [ofDecDigits_decDigits, ofDecDigits_decDigits] at hv

/-! ## String facts used for display-label distinctness -/

theorem stringDataInj {s t : String} (h : s.data = t.data) : s = t := by
  cases s; cases t; exact congrArg String.mk h

theorem string_append_right_ne {b s t : String} (h : s ≠ t) : b ++ s ≠ b ++ t := by
  intro he
  have h2 : b.data ++ s.data = b.data ++ t.data := by
    simpa [String.data_append] using congrArg String.data he
  exact h (stringDataInj (List.append_cancel_left h2))

theorem string_ne_append_of_ne_empty {b s : String} (h : s.data ≠ []) :
    b ≠ b ++ s := by
  intro he
  have h2 : b.data = b.data ++ s.data := by
    simpa [String.data_append] using congrArg String.data he
  have h4 : b.data ++ [] = b.data ++ s.data := by simpa using h2
  exact h (List.append_cancel_left h4).symm

theorem timeSuffix_inj {t1 t2 : String}
    (h : (" (" ++ (t1 ++ ")") : String) = " (" ++ (t2 ++ ")")) : t1 = t2 := by
  have h2 : (" (" : String).data ++ (t1.data ++ (")" : String).data) =
      (" (" : String).data ++ (t2.data ++ (")" : String).data) := by
    simpa [String.data_append, List.append_assoc] using congrArg String.data h
  exact stringDataInj (List.append_cancel_right (List.append_cancel_left h2))

theorem time_ne_counter (t : String) (k : Nat) :
    (" (" ++ (t ++ ")") : String) ≠ " #" ++ Nat.repr k := by
  intro h
  have h3 : (' ' :: '(' :: (t.data ++ [')'])) = (' ' :: '#' :: (Nat.repr k).data) := by
    simpa [String.data_append, List.append_assoc] using congrArg String.data h
  rw [List.cons.injEq, List.cons.injEq] at h3
  exact absurd h3.2.1 (by decide)

theorem counterSuffix_inj {k1 k2 : Nat}
    (h : (" #" ++ Nat.repr k1 : String) = " #" ++ Nat.repr k2) : k1 = k2 := by
  have h2 : (" #" : String).data ++ (Nat.repr k1).data =
      (" #" : String).data ++ (Nat.repr k2).data := by
    simpa [String.data_append] using congrArg String.data h
  exact natRepr_inj (stringDataInj (List.append_cancel_left h2))

theorem stringAppendAssoc (a b c : String) : (a ++ b) ++ c = a ++ (b ++ c) :=
  stringDataInj (by simp [String.data_append, List.append_assoc])

/-! ## The display-label pass -/

theorem labelPass_cons (c : String → Nat) (x : Reading) (t : List Reading) :
    labelPass c (x :: t) =
      decorate x (c x.dateStr + 1) ::
        labelPass (fun s => if s = x.dateStr then c x.dateStr + 1 else c s) t := rfl

theorem labelPass_length (c : String → Nat) (l : List Reading) :
    (labelPass c l).length = l.length := by
  induction l generalizing c with
  | nil => rfl
  | cons x t ih => rw [labelPass_cons]; simp [ih]

theorem decorate_displayDate (x : Reading) (k : Nat) :
    (decorate x k).displayDate =
      if 1 < k then
        if x.time ≠ "" then x.dateStr ++ " (" ++ x.time ++ ")"
        else x.dateStr ++ " #" ++ Nat.repr k
      else x.dateStr := by
  by_cases h : 1 < k <;> by_cases h2 : x.time ≠ "" <;> simp [decorate, h, h2]

theorem stripLabel_decorate (x : Reading) (k : Nat) :
    stripLabel (decorate x k) = stripLabel x := by
  by_cases h : 1 < k <;> by_cases h2 : x.time ≠ "" <;> simp [decorate, stripLabel, h, h2]

theorem decorate_dateStr (x : Reading) (k : Nat) :
    (decorate x k).dateStr = x.dateStr := by
  by_cases h : 1 < k <;> by_cases h2 : x.time ≠ "" <;> simp [decorate, h, h2]

theorem decorate_time (x : Reading) (k : Nat) :
    (decorate x k).time = x.time := by
  by_cases h : 1 < k <;> by_cases h2 : x.time ≠ "" <;> simp [decorate, h, h2]

theorem labelPass_map_strip (c : String → Nat) (l : List Reading) :
    (labelPass c l).map stripLabel = l.map stripLabel := by
  induction l generalizing c with
  | nil => rfl
  | cons x t ih => rw [labelPass_cons]; simp [stripLabel_decorate, ih]

theorem occTo_zero_cons (x : Reading) (t : List Reading) : occTo (x :: t) 0 = 1 := by
  simp [occTo, List.take, List.filter]

theorem occTo_cons_succ (x : Reading) (t : List Reading) (i : Nat) (y : Reading)
    (ht : t[i]? = some y) :
    occTo (x :: t) (i + 1) = (if x.dateStr = y.dateStr then 1 else 0) + occTo t i := by
  simp only [occTo, List.getElem?_cons_succ, ht, List.take_succ_cons, List.filter_cons]
  by_cases h : x.dateStr = y.dateStr <;> simp [h, Nat.add_comm]

theorem labelPass_getElem? (c : String → Nat) (l : List Reading) (i : Nat) :
    (labelPass c l)[i]? =
      (l[i]?).map (fun x => decorate x (c x.dateStr + occTo l i)) := by
  induction l generalizing c i with
  | nil => simp [labelPass]
  | cons x t ih =>
    cases i with
    | zero =>
      rw [labelPass_cons]
      simp [occTo_zero_cons]
    | succ i =>
      rw [labelPass_cons]
      simp only [List.getElem?_cons_succ]
      rw [ih]
      cases ht : t[i]? with
      | none => simp
      | some y =>
        have hocc := occTo_cons_succ x t i y ht
        simp only [Option.map_some']
        have hK : (if y.dateStr = x.dateStr then c x.dateStr + 1 else c y.dateStr) + occTo t i
            = c y.dateStr + occTo (x :: t) (i + 1) := by
          rw [hocc]
          by_cases h : x.dateStr = y.dateStr
          · rw [if_pos h.symm, if_pos h, h]
            omega
          · rw [if_neg (fun he => h he.symm), if_neg h]
            omega
        rw [← hK]

theorem occTo_pos (l : List Reading) (i : Nat) (hi : i < l.length) :
    1 ≤ occTo l i := by
  have hget : l[i]? = some l[i] := List.getElem?_eq_getElem hi
  have hmem : l[i] ∈ l.take (i + 1) := by
    have h1 : (l.take (i + 1))[i]? = some l[i] := by
      rw [List.getElem?_take_of_lt (by omega), hget]
    exact List.getElem?_mem h1
  have hfil : l[i] ∈ (l.take (i + 1)).filter (fun y => decide (y.dateStr = l[i].dateStr)) :=
    List.mem_filter.mpr ⟨hmem, by simp⟩
  have := List.length_pos.mpr (List.ne_nil_of_mem hfil)
  simp only [occTo, hget]
  omega

theorem occTo_lt_occTo (l : List Reading) (i j : Nat) (hi : i < l.length)
    (hj : j < l.length) (hij : i < j)
    (hday : (l.get ⟨i, hi⟩).dateStr = (l.get ⟨j, hj⟩).dateStr) :
    occTo l i < occTo l j := by
  have hgi : l[i]? = some (l.get ⟨i, hi⟩) := by
    rw [List.getElem?_eq_getElem hi]; simp
  have hgj : l[j]? = some (l.get ⟨j, hj⟩) := by
    rw [List.getElem?_eq_getElem hj]; simp
  have hsplit : l.take (j + 1) = l.take (i + 1) ++ (l.take (j + 1)).drop (i + 1) := by
    conv_lhs => rw [← List.take_append_drop (i + 1) (l.take (j + 1))]
    congr 1
    rw [List.take_take]
    congr 1
    omega
  have hmem : l.get ⟨j, hj⟩ ∈ (l.take (j + 1)).drop (i + 1) := by
    have h2 : ((l.take (j + 1)).drop (i + 1))[j - i - 1]? = (l.take (j + 1))[(i + 1) + (j - i - 1)]? :=
      List.getElem?_drop _ _ _
    have h3 : (i + 1) + (j - i - 1) = j := by omega
    have h4 : (l.take (j + 1))[j]? = l[j]? := List.getElem?_take_of_lt (by omega)
    exact List.getElem?_mem (by rw [h2, h3, h4, hgj])
  have hkey := congrArg
    (fun t => (t.filter (fun y => decide (y.dateStr = (l.get ⟨j, hj⟩).dateStr))).length) hsplit
  simp only [List.filter_append, List.length_append] at hkey
  have hone : 1 ≤ (((l.take (j + 1)).drop (i + 1)).filter
      (fun y => decide (y.dateStr = (l.get ⟨j, hj⟩).dateStr))).length := by
    have hin : l.get ⟨j, hj⟩ ∈ ((l.take (j + 1)).drop (i + 1)).filter
        (fun y => decide (y.dateStr = (l.get ⟨j, hj⟩).dateStr)) :=
      List.mem_filter.mpr ⟨hmem, by simp⟩
    have := List.length_pos.mpr (List.ne_nil_of_mem hin)
    omega
  simp only [occTo, hgi, hgj, hday]
  omega

theorem decorate_displayDate_ne (x z : Reading) (hday : x.dateStr = z.dateStr)
    {k1 k2 : Nat} (h1 : 1 ≤ k1) (hlt : k1 < k2)
    (ht : 1 < k1 → x.time ≠ "" → x.time = z.time → False) :
    (decorate x k1).displayDate ≠ (decorate z k2).displayDate := by
  have hk2 : 1 < k2 := by omega
  rw [decorate_displayDate, decorate_displayDate, if_pos hk2, hday]
  by_cases hx1 : 1 < k1
  · rw [if_pos hx1]
    by_cases hxt : x.time = ""
    · rw [if_neg (by simpa using hxt)]
      by_cases hzt : z.time = ""
      · rw [if_neg (by simpa using hzt)]
        simp only [stringAppendAssoc]
        exact string_append_right_ne (fun hr => absurd (counterSuffix_inj hr) (by omega))
      · rw [if_pos (by simpa using hzt)]
        simp only [stringAppendAssoc]
        exact string_append_right_ne (fun hr => time_ne_counter z.time k1 hr.symm)
    · rw [if_pos (by simpa using hxt)]
      by_cases hzt : z.time = ""
      · rw [if_neg (by simpa using hzt)]
        simp only [stringAppendAssoc]
        exact string_append_right_ne (fun hr => time_ne_counter x.time k2 hr)
      · rw [if_pos (by simpa using hzt)]
        simp only [stringAppendAssoc]
        refine string_append_right_ne (fun hr => ?_)
        exact ht hx1 hxt (timeSuffix_inj hr)
  · rw [if_neg hx1]
    by_cases hzt : z.time = ""
    · rw [if_neg (by simpa using hzt)]
      simp only [stringAppendAssoc]
      exact string_ne_append_of_ne_empty (by simp [String.data_append])
    · rw [if_pos (by simpa using hzt)]
      simp only [stringAppendAssoc]
      exact string_ne_append_of_ne_empty (by simp [String.data_append])

/-! ## The map–filter–sort stage -/

theorem processedData_eq (raw : List RawRow) :
    processedData raw = labelPass (fun _ => 0) (processedStage raw) := by
  cases raw with
  | nil => rfl
  | cons x t => simp [processedData]

theorem mem_processedStage {raw : List RawRow} {r : Reading} :
    r ∈ processedStage raw ↔ r ∈ raw.enum.map mkReading ∧ 0 < r.sugarLevel := by
  unfold processedStage
  rw [List.mem_insertionSort, List.mem_filter]
  simp

theorem mkReading_displayDate (p : Nat × RawRow) : (mkReading p).displayDate = "" := rfl

theorem mkReading_id (p : Nat × RawRow) : (mkReading p).id = p.1 := rfl

theorem mem_enum_map {raw : List RawRow} {r : Reading} :
    r ∈ raw.enum.map mkReading ↔
      ∃ i, ∃ h : i < raw.length, r = mkReading (i, raw.get ⟨i, h⟩) := by
  rw [List.mem_map]
  constructor
  · rintro ⟨⟨i, row⟩, hmem, hr⟩
    have := List.mem_enum_iff_get?.mp hmem
    have h2 := List.get?_eq_some.mp this
    obtain ⟨hlt, hrow⟩ := h2
    have hrow' : raw.get ⟨i, hlt⟩ = row := hrow
    exact ⟨i, hlt, by rw [← hr, hrow']⟩
  · rintro ⟨i, h, hr⟩
    refine ⟨(i, raw.get ⟨i, h⟩), ?_, hr.symm⟩
    exact List.mem_enum_iff_get?.mpr (by simp [List.get?_eq_some])

theorem stage_displayDate {raw : List RawRow} {r : Reading}
    (hr : r ∈ processedStage raw) : r.displayDate = "" := by
  obtain ⟨hm, _⟩ := mem_processedStage.mp hr
  obtain ⟨i, h, hr'⟩ := mem_enum_map.mp hm
  rw [hr', mkReading_displayDate]

theorem stripLabel_eq_self {r : Reading} (h : r.displayDate = "") :
    stripLabel r = r := by
  cases r
  simp only [stripLabel]
  simp_all

theorem map_strip_stage (raw : List RawRow) :
    (processedStage raw).map stripLabel = processedStage raw := by
  have : ∀ r ∈ processedStage raw, stripLabel r = r :=
    fun r hr => stripLabel_eq_self (stage_displayDate hr)
  calc (processedStage raw).map stripLabel
      = (processedStage raw).map id := List.map_congr_left this
    _ = processedStage raw := List.map_id _

theorem strip_mem_stage_of_mem_processedData {raw : List RawRow} {r : Reading}
    (hr : r ∈ processedData raw) : stripLabel r ∈ processedStage raw := by
  rw [processedData_eq] at hr
  have h1 : stripLabel r ∈ (labelPass (fun _ => 0) (processedStage raw)).map stripLabel :=
    List.mem_map_of_mem stripLabel hr
  rwa [labelPass_map_strip, map_strip_stage] at h1

theorem mem_processedData_of_mem_stage {raw : List RawRow} {r0 : Reading}
    (h : r0 ∈ processedStage raw) :
    ∃ r ∈ processedData raw, stripLabel r = r0 := by
  have h1 : r0 ∈ (processedStage raw).map stripLabel := by
    rw [map_strip_stage]; exact h
  rw [← labelPass_map_strip (fun _ => 0), ← processedData_eq] at h1
  obtain ⟨r, hmem, hr⟩ := List.mem_map.mp h1
  exact ⟨r, hmem, hr⟩

/-! ## Sortedness and stability -/

theorem jsLe_iff_of_valid {a b : Reading} (ha : hasValidDate a) (hb : hasValidDate b) :
    jsLe a b ↔ keyOf a ≤ keyOf b := by
  obtain ⟨da, hda⟩ := Option.isSome_iff_exists.mp ha
  obtain ⟨db, hdb⟩ := Option.isSome_iff_exists.mp hb
  simp only [jsLe, cmpJS, keyOf, hda, hdb]
  omega

theorem keyOf_lt_of_not_jsLe {a b : Reading} (ha : hasValidDate a) (hb : hasValidDate b)
    (h : ¬ jsLe a b) : keyOf b < keyOf a := by
  have := (jsLe_iff_of_valid ha hb).not.mp h
  omega

theorem lexR_key_le {a b : Reading} (h : lexR a b) : keyOf a ≤ keyOf b := by
  rcases h with h | ⟨h, _⟩ <;> omega

theorem orderedInsert_lex (x : Reading) (l : List Reading)
    (hx : hasValidDate x) (hl : ∀ y ∈ l, hasValidDate y)
    (hid : ∀ y ∈ l, keyOf y = keyOf x → x.id < y.id)
    (hp : l.Pairwise lexR) :
    (List.orderedInsert jsLe x l).Pairwise lexR := by
  induction l with
  | nil => simp [List.orderedInsert]
  | cons b t ih =>
    rw [List.orderedInsert]
    by_cases hle : jsLe x b
    · rw [if_pos hle]
      refine List.pairwise_cons.mpr ⟨?_, hp⟩
      intro y hy
      have hxb : keyOf x ≤ keyOf b :=
        (jsLe_iff_of_valid hx (hl b (by simp))).mp hle
      rcases List.mem_cons.mp hy with rfl | hyt
      · rcases Nat.lt_or_ge (keyOf x) (keyOf y) with h | h
        · exact Or.inl h
        · have hk : keyOf y = keyOf x := by omega
          exact Or.inr ⟨hk.symm, hid y (by simp) hk⟩
      · have hby : keyOf b ≤ keyOf y :=
          lexR_key_le ((List.pairwise_cons.mp hp).1 y hyt)
        rcases Nat.lt_or_ge (keyOf x) (keyOf y) with h | h
        · exact Or.inl h
        · have hk : keyOf y = keyOf x := by omega
          exact Or.inr ⟨hk.symm, hid y (by simp [hyt]) hk⟩
    · rw [if_neg hle]
      have hbv := hl b (by simp)
      refine List.pairwise_cons.mpr ⟨?_, ?_⟩
      · intro y hy
        rcases (List.mem_orderedInsert _).mp hy with rfl | hyt
        · exact Or.inl (keyOf_lt_of_not_jsLe hx hbv hle)
        · exact (List.pairwise_cons.mp hp).1 y hyt
      · exact ih (fun y hy => hl y (by simp [hy]))
          (fun y hy hk => hid y (by simp [hy]) hk)
          (List.pairwise_cons.mp hp).2

theorem insertionSort_lex (l : List Reading)
    (hl : ∀ y ∈ l, hasValidDate y) (hid : l.Pairwise (fun a b => a.id < b.id)) :
    (List.insertionSort jsLe l).Pairwise lexR := by
  induction l with
  | nil => simp
  | cons a t ih =>
    rw [List.insertionSort]
    apply orderedInsert_lex
    · exact hl a (by simp)
    · intro y hy
      exact hl y (List.mem_cons_of_mem a ((List.mem_insertionSort _).mp hy))
    · intro y hy _
      exact (List.pairwise_cons.mp hid).1 y ((List.mem_insertionSort _).mp hy)
    · exact ih (fun y hy => hl y (by simp [hy])) (List.pairwise_cons.mp hid).2

theorem enum_map_pairwise_id (raw : List RawRow) :
    (raw.enum.map mkReading).Pairwise (fun a b => a.id < b.id) := by
  rw [List.pairwise_map]
  apply List.pairwise_iff_get.mpr
  intro i j hij
  simp only [List.get_enum, mkReading_id]
  exact hij

theorem processedStage_lex (raw : List RawRow)
    (hval : ∀ r ∈ raw.enum.map mkReading, hasValidDate r) :
    (processedStage raw).Pairwise lexR := by
  unfold processedStage
  apply insertionSort_lex
  · intro y hy
    exact hval y (List.mem_of_mem_filter hy)
  · exact (enum_map_pairwise_id raw).filter _

theorem processedData_lex (raw : List RawRow)
    (hval : ∀ r ∈ raw.enum.map mkReading, hasValidDate r) :
    (processedData raw).Pairwise lexR := by
  have hst := processedStage_lex raw hval
  have h1 : ((processedStage raw).map stripLabel).Pairwise lexR := by
    rw [map_strip_stage]; exact hst
  rw [← labelPass_map_strip (fun _ => 0), ← processedData_eq] at h1
  have h2 := List.pairwise_map.mp h1
  exact h2.imp (fun h => h)

/-! ## Aggregation -/

theorem foldl_add_eq (a : ℚ) (l : List ℚ) : l.foldl (· + ·) a = a + l.sum := by
  induction l generalizing a with
  | nil => simp
  | cons x t ih => simp [ih, add_assoc]

theorem jsSum_eq_sum (l : List ℚ) : jsSum l = l.sum := by
  simp [jsSum, foldl_add_eq]

theorem foldl_max_mem (a : ℚ) (l : List ℚ) : l.foldl max a ∈ a :: l := by
  induction l generalizing a with
  | nil => simp
  | cons x t ih =>
    rw [List.foldl_cons]
    rcases List.mem_cons.mp (ih (max a x)) with h | h
    · rcases max_choice a x with hm | hm <;> rw [h, hm] <;> simp
    · simp [h]

theorem foldl_max_bounds (a : ℚ) (l : List ℚ) :
    a ≤ l.foldl max a ∧ ∀ x ∈ l, x ≤ l.foldl max a := by
  induction l generalizing a with
  | nil => simp
  | cons x t ih =>
    rw [List.foldl_cons]
    refine ⟨le_trans (le_max_left a x) (ih (max a x)).1, ?_⟩
    intro y hy
    rcases List.mem_cons.mp hy with rfl | hyt
    · exact le_trans (le_max_right a y) (ih (max a y)).1
    · exact (ih (max a x)).2 y hyt

theorem jsMax_mem {l : List ℚ} (h : l ≠ []) : jsMax l ∈ l := by
  cases l with
  | nil => exact absurd rfl h
  | cons x t => exact foldl_max_mem x t

theorem le_jsMax {l : List ℚ} {x : ℚ} (hx : x ∈ l) : x ≤ jsMax l := by
  cases l with
  | nil => cases hx
  | cons y t =>
    rcases List.mem_cons.mp hx with rfl | hxt
    · exact (foldl_max_bounds x t).1
    · exact (foldl_max_bounds y t).2 x hxt

theorem foldl_min_mem (a : ℚ) (l : List ℚ) : l.foldl min a ∈ a :: l := by
  induction l generalizing a with
  | nil => simp
  | cons x t ih =>
    rw [List.foldl_cons]
    rcases List.mem_cons.mp (ih (min a x)) with h | h
    · rcases min_choice a x with hm | hm <;> rw [h, hm] <;> simp
    · simp [h]

theorem foldl_min_bounds (a : ℚ) (l : List ℚ) :
    l.foldl min a ≤ a ∧ ∀ x ∈ l, l.foldl min a ≤ x := by
  induction l generalizing a with
  | nil => simp
  | cons x t ih =>
    rw [List.foldl_cons]
    refine ⟨le_trans (ih (min a x)).1 (min_le_left a x), ?_⟩
    intro y hy
    rcases List.mem_cons.mp hy with rfl | hyt
    · exact le_trans (ih (min a y)).1 (min_le_right a y)
    · exact (ih (min a x)).2 y hyt

theorem jsMin_mem {l : List ℚ} (h : l ≠ []) : jsMin l ∈ l := by
  cases l with
  | nil => exact absurd rfl h
  | cons x t => exact foldl_min_mem x t

theorem jsMin_le {l : List ℚ} {x : ℚ} (hx : x ∈ l) : jsMin l ≤ x := by
  cases l with
  | nil => cases hx
  | cons y t =>
    rcases List.mem_cons.mp hx with rfl | hxt
    · exact (foldl_min_bounds x t).1
    · exact (foldl_min_bounds y t).2 x hxt

theorem countP_partition (p q : Reading → Bool) (l : List Reading)
    (hdisj : ∀ x ∈ l, ¬(p x = true ∧ q x = true)) :
    l.countP p + l.countP q ≤ l.length ∧
      (l.countP p + l.countP q = l.length ↔ ∀ x ∈ l, p x = true ∨ q x = true) := by
  induction l with
  | nil => simp
  | cons x t ih =>
    have iht := ih (fun y hy => hdisj y (by simp [hy]))
    have hx := hdisj x (by simp)
    rw [List.countP_cons, List.countP_cons, List.length_cons, List.forall_mem_cons]
    by_cases hp : p x = true <;> by_cases hq : q x = true
    · exact absurd ⟨hp, hq⟩ hx
    · rw [if_pos hp, if_neg hq]
      constructor
      · omega
      · constructor
        · intro he
          exact ⟨Or.inl hp, iht.2.mp (by omega)⟩
        · intro ⟨_, hall⟩
          have := iht.2.mpr hall
          omega
    · rw [if_neg hp, if_pos hq]
      constructor
      · omega
      · constructor
        · intro he
          exact ⟨Or.inr hq, iht.2.mp (by omega)⟩
        · intro ⟨_, hall⟩
          have := iht.2.mpr hall
          omega
    · rw [if_neg hp, if_neg hq]
      constructor
      · omega
      · constructor
        · intro he
          omega
        · intro ⟨hhead, _⟩
          rcases hhead with h | h
          · exact absurd h hp
          · exact absurd h hq

/-! ## Claims -/

/-- C1, counterexample: with the remote source configured and the remote
fetch rejected (a network-level failure, not an HTTP error response), the
loader does not attempt the local fallback — the local URL is never
fetched — and the resulting error message carries only the rejection text,
referencing neither source. -/
theorem C1_counterexample :
    loadCSVData rejectAllEnv =
      (.errorState "Error loading CSV file: Failed to fetch",
        [GOOGLE_SHEET_URL "test-sheet-id"]) ∧
    LOCAL_CSV_URL ∉ (loadCSVData rejectAllEnv).2 := by
  exact ⟨by decide, by decide⟩

/-- C1, amended: when the remote source is configured and the remote fetch
resolves with a non-OK HTTP response, the loader attempts the local
fallback, and if that also resolves non-OK the terminal error message
references both attempted sources ("... from both Google Sheets and local
source ..."); a rejected fetch instead lands directly in the catch block
with the rejection's message and no fallback attempt. -/
theorem C1_amended_fallback (sheet : String) (f : String → FetchOutcome)
    (hconf : jsTrim sheet ≠ "") :
    (∀ st stt b st2 stt2 b2,
      f (GOOGLE_SHEET_URL sheet) = .response false st stt b →
      f LOCAL_CSV_URL = .response false st2 stt2 b2 →
      loadCSVData ⟨some sheet, f⟩ =
        (.errorState "Error loading CSV file: Failed to load CSV file from both Google Sheets and local source. Check console for details.",
          [GOOGLE_SHEET_URL sheet, LOCAL_CSV_URL])) ∧
    (∀ msg, f (GOOGLE_SHEET_URL sheet) = .rejected msg →
      loadCSVData ⟨some sheet, f⟩ =
        (.errorState ("Error loading CSV file: " ++ msg), [GOOGLE_SHEET_URL sheet])) := by
  constructor
  · intro st stt b st2 stt2 b2 h1 h2
    simp [loadCSVData, hconf, h1, h2]
  · intro msg h1
    simp [loadCSVData, hconf, h1]

/-- Witness for C1's amended theorem at a concrete environment. -/
theorem C1_amended_fallback_witness :
    loadCSVData notOkEnv =
      (.errorState "Error loading CSV file: Failed to load CSV file from both Google Sheets and local source. Check console for details.",
        [GOOGLE_SHEET_URL "abc", LOCAL_CSV_URL]) :=
  (C1_amended_fallback "abc" notOkEnv.fetch (by decide)).1
    403 "Forbidden" "" 404 "Not Found" "" (by decide) (by decide)

/-- C2, counterexample: on `dupTimeRows` all three normalized readings
share the calendar-day label "Jan 1", yet the readings at positions 1 and
2 (distinct readings) carry the same display label "Jan 1 (14:00)",
refuting display-label uniqueness. -/
theorem C2_counterexample :
    (processedData dupTimeRows).map (fun r => r.dateStr) =
      ["Jan 1", "Jan 1", "Jan 1"] ∧
    (processedData dupTimeRows).map (fun r => r.displayDate) =
      ["Jan 1", "Jan 1 (14:00)", "Jan 1 (14:00)"] ∧
    (processedData dupTimeRows)[1]? ≠ (processedData dupTimeRows)[2]? := by
  exact ⟨by decide, by decide, by decide⟩

/-- C5: the normalizer's validity filter.  Every normalized reading has
`sugarLevel > 0` (a `ℚ`, hence never `NaN`); numeric-parse failure is
coerced to `0` by `|| 0`; and any raw row whose coerced level is `≤ 0`
contributes no normalized reading (no reading carries its index). -/
theorem C5_validity_filter (raw : List RawRow) :
    (∀ r ∈ processedData raw, 0 < r.sugarLevel) ∧
    jsOr0 JSNum.nan = 0 ∧
    (∀ i, ∀ h : i < raw.length, jsOr0 ((raw.get ⟨i, h⟩).sugarLevel) ≤ 0 →
      ∀ r ∈ processedData raw, r.id ≠ i) := by
  refine ⟨?_, rfl, ?_⟩
  · intro r hr
    have hs := strip_mem_stage_of_mem_processedData hr
    exact (mem_processedStage.mp hs).2
  · intro i h hle r hr hid
    have hs := strip_mem_stage_of_mem_processedData hr
    obtain ⟨hm, hpos⟩ := mem_processedStage.mp hs
    obtain ⟨i', h', he⟩ := mem_enum_map.mp hm
    have hid' : r.id = i' := by
      have := congrArg Reading.id he
      simpa [stripLabel, mkReading_id] using this
    have hii : i' = i := by omega
    subst hii
    have hsug : (stripLabel r).sugarLevel = jsOr0 ((raw.get ⟨i', h'⟩).sugarLevel) := by
      rw [he]
      rfl
    rw [hsug] at hpos
    exact absurd hpos (not_lt.mpr hle)

/-- C6: exact-match type partitioning.  A `FASTING` reading is in the
fasting partition and not the random one; a `RANDOM` reading conversely;
any other type (e.g. `UNKNOWN`) is in neither partition while its sugar
level still appears in the list the overall statistics aggregate. -/
theorem C6_type_partitions (raw : List RawRow) (r : Reading)
    (hr : r ∈ processedData raw) :
    (r.type = "FASTING" → r ∈ fastingData raw ∧ r ∉ randomData raw) ∧
    (r.type = "RANDOM" → r ∈ randomData raw ∧ r ∉ fastingData raw) ∧
    (r.type ≠ "FASTING" → r.type ≠ "RANDOM" →
      r ∉ fastingData raw ∧ r ∉ randomData raw ∧
      r.sugarLevel ∈ (processedData raw).map (fun d => d.sugarLevel)) := by
  unfold fastingData randomData
  refine ⟨?_, ?_, ?_⟩
  · intro ht
    constructor
    · exact List.mem_filter.mpr ⟨hr, by simp [ht]⟩
    · intro hmem
      have := (List.mem_filter.mp hmem).2
      simp [ht] at this
  · intro ht
    constructor
    · exact List.mem_filter.mpr ⟨hr, by simp [ht]⟩
    · intro hmem
      have := (List.mem_filter.mp hmem).2
      simp [ht] at this
  · intro h1 h2
    refine ⟨?_, ?_, List.mem_map_of_mem _ hr⟩
    · intro hmem
      have := (List.mem_filter.mp hmem).2
      simp [h1] at this
    · intro hmem
      have := (List.mem_filter.mp hmem).2
      simp [h2] at this

/-- Witness for C6 at the scenario input's first reading. -/
theorem C6_type_partitions_witness :
    (sampleR1.type = "FASTING" →
      sampleR1 ∈ fastingData sampleRows ∧ sampleR1 ∉ randomData sampleRows) ∧
    (sampleR1.type = "RANDOM" →
      sampleR1 ∈ randomData sampleRows ∧ sampleR1 ∉ fastingData sampleRows) ∧
    (sampleR1.type ≠ "FASTING" → sampleR1.type ≠ "RANDOM" →
      sampleR1 ∉ fastingData sampleRows ∧ sampleR1 ∉ randomData sampleRows ∧
      sampleR1.sugarLevel ∈ (processedData sampleRows).map (fun d => d.sugarLevel)) :=
  C6_type_partitions sampleRows sampleR1 (by decide)

/-- C8: the normalizer does not filter on date validity: a raw row whose
date fails calendar parsing but whose sugar level coerces to a positive
number yields a normalized reading (carrying the invalid date `none`). -/
theorem C8_invalid_date_retained (raw : List RawRow) (i : Nat) (h : i < raw.length)
    (hdate : parseDate ((raw.get ⟨i, h⟩).date) = none)
    (hpos : 0 < jsOr0 ((raw.get ⟨i, h⟩).sugarLevel)) :
    ∃ r ∈ processedData raw, r.id = i ∧ r.date = none ∧
      r.sugarLevel = jsOr0 ((raw.get ⟨i, h⟩).sugarLevel) := by
  have hm : mkReading (i, raw.get ⟨i, h⟩) ∈ raw.enum.map mkReading :=
    mem_enum_map.mpr ⟨i, h, rfl⟩
  have hstage : mkReading (i, raw.get ⟨i, h⟩) ∈ processedStage raw :=
    mem_processedStage.mpr ⟨hm, hpos⟩
  obtain ⟨r, hr, hstrip⟩ := mem_processedData_of_mem_stage hstage
  refine ⟨r, hr, ?_, ?_, ?_⟩
  · have := congrArg Reading.id hstrip
    simpa [stripLabel, mkReading_id] using this
  · have h5 := congrArg Reading.date hstrip
    simp only [stripLabel, mkReading] at h5
    rw [h5]
    simpa using hdate
  · have := congrArg Reading.sugarLevel hstrip
    simpa [stripLabel, mkReading] using this

/-- Witness for C8 on a one-row input with an unparseable date. -/
theorem C8_invalid_date_retained_witness :
    ∃ r ∈ processedData badDateRows, r.id = 0 ∧ r.date = none ∧
      r.sugarLevel = 120 := by
  obtain ⟨r, hr, h1, h2, h3⟩ :=
    C8_invalid_date_retained badDateRows 0 (by decide) (by decide) (by decide)
  exact ⟨r, hr, h1, h2, by simpa using h3⟩

/-- C9: every normalized reading's `id` is the 0-based index of its
originating raw row (assigned before filtering and sorting): stripping the
derived display label recovers exactly `mkReading` of that row.  On
`outOfOrderRows` the surviving ids are `[2, 0]`: non-contiguous and out of
order. -/
theorem C9_ids_are_input_positions :
    (∀ raw : List RawRow, ∀ r ∈ processedData raw, ∃ h : r.id < raw.length,
      stripLabel r = mkReading (r.id, raw.get ⟨r.id, h⟩)) ∧
    (processedData outOfOrderRows).map (fun r => r.id) = [2, 0] := by
  constructor
  · intro raw r hr
    obtain ⟨hm, _⟩ := mem_processedStage.mp (strip_mem_stage_of_mem_processedData hr)
    obtain ⟨i, h, he⟩ := mem_enum_map.mp hm
    have hid : r.id = i := by
      have := congrArg Reading.id he
      simpa [stripLabel, mkReading_id] using this
    subst hid
    exact ⟨h, he⟩
  · decide

/-- C3: when every raw date parses, the normalized collection is pairwise
non-decreasing in the date key, and readings with equal dates appear in
strictly increasing `id` (= original input position) order — the sort is
stable. -/
theorem C3_sorted_stable (raw : List RawRow)
    (hval : ∀ i, ∀ h : i < raw.length,
      (parseDate ((raw.get ⟨i, h⟩).date)).isSome = true) :
    (processedData raw).Pairwise
      (fun a b => keyOf a ≤ keyOf b ∧ (keyOf a = keyOf b → a.id < b.id)) := by
  have hval' : ∀ r ∈ raw.enum.map mkReading, hasValidDate r := by
    intro r hm
    obtain ⟨i, h, he⟩ := mem_enum_map.mp hm
    rw [he]
    exact hval i h
  have hlex := processedData_lex raw hval'
  refine hlex.imp ?_
  intro a b h
  refine ⟨lexR_key_le h, fun hk => ?_⟩
  rcases h with h | ⟨_, hid⟩
  · omega
  · exact hid

/-- Witness for C3 at the spec scenario input. -/
theorem C3_sorted_stable_witness :
    (processedData sampleRows).Pairwise
      (fun a b => keyOf a ≤ keyOf b ∧ (keyOf a = keyOf b → a.id < b.id)) :=
  C3_sorted_stable sampleRows (by decide)

/-- C7: the spec's concrete three-row scenario.  Normalization yields
exactly the two readings (the zero-level third row is dropped), labelled
"Jan 1" and "Jan 1 (14:00)", and the statistics are overall
`avg = 245/2 = 122.5, max = 150, min = 95, count = 2`; fasting
`avg = 95, count = 1`; random `avg = 150, count = 1`. -/
theorem C7_scenario :
    processedData sampleRows = [sampleR1, sampleR2] ∧
    (processedData sampleRows).map (fun r => r.displayDate) =
      ["Jan 1", "Jan 1 (14:00)"] ∧
    stats sampleRows =
      { overall := ⟨some (245 / 2), some 150, some 95, 2⟩
        fasting := ⟨some 95, some 95, some 95, 1⟩
        random := ⟨some 150, some 150, some 150, 1⟩ } := by
  refine ⟨by decide, by decide, ?_⟩
  have hpd : processedData sampleRows = [sampleR1, sampleR2] := by decide
  have hf : fastingData sampleRows = [sampleR1] := by decide
  have hr : randomData sampleRows = [sampleR2] := by decide
  rw [stats]
  simp [hpd, hf, hr, jsSum, jsMax, jsMin, toFixed1, sampleR1, sampleR2]
  norm_num

/-- C10: the overall count is the size of the normalized collection, the
fasting and random counts sum to at most the overall count, and equality
holds exactly when every normalized reading's type is `FASTING` or
`RANDOM`. -/
theorem C10_count_consistency (raw : List RawRow) :
    (stats raw).overall.count = (processedData raw).length ∧
    (stats raw).fasting.count + (stats raw).random.count ≤ (stats raw).overall.count ∧
    ((stats raw).fasting.count + (stats raw).random.count = (stats raw).overall.count ↔
      ∀ r ∈ processedData raw, r.type = "FASTING" ∨ r.type = "RANDOM") := by
  have hdisj : ∀ x ∈ processedData raw,
      ¬(decide (x.type = "FASTING") = true ∧ decide (x.type = "RANDOM") = true) := by
    intro x _ hx
    obtain ⟨h1, h2⟩ := hx
    rw [decide_eq_true_eq] at h1 h2
    rw [h1] at h2
    exact absurd h2 (by decide)
  have hcp := countP_partition (fun d => decide (d.type = "FASTING"))
    (fun d => decide (d.type = "RANDOM")) (processedData raw) hdisj
  have hc : (stats raw).overall.count = (processedData raw).length ∧
      (stats raw).fasting.count =
        (processedData raw).countP (fun d => decide (d.type = "FASTING")) ∧
      (stats raw).random.count =
        (processedData raw).countP (fun d => decide (d.type = "RANDOM")) := by
    by_cases h : (processedData raw).length = 0
    · have hnil : processedData raw = [] := List.length_eq_zero.mp h
      simp [stats, h, hnil]
    · simp [stats, h, fastingData, randomData, List.countP_eq_length_filter]
  rw [hc.1, hc.2.1, hc.2.2]
  have hiff := hcp.2
  simp only [decide_eq_true_eq] at hiff
  exact ⟨rfl, hcp.1, hiff⟩

/-- C2, amended: the labelling mechanism holds as specified — position `i`
of the normalized collection is the sorted reading at `i` decorated with
its 1-based per-day occurrence number (first occurrence bare; later ones
get the time if nonempty, else the counter).  Display labels of two
same-day readings are distinct provided that, when the earlier one is a
non-first occurrence, the two do not share the same nonempty time string
(the counterexample shows equal labels when two non-first same-day
readings share a time). -/
theorem C2_display_labels (raw : List RawRow) :
    (∀ i, (processedData raw)[i]? =
      ((processedStage raw)[i]?).map
        (fun x => decorate x (occTo (processedStage raw) i))) ∧
    (∀ i j, ∀ hi : i < (processedData raw).length,
      ∀ hj : j < (processedData raw).length,
      i < j →
      ((processedData raw).get ⟨i, hi⟩).dateStr =
        ((processedData raw).get ⟨j, hj⟩).dateStr →
      (1 < occTo (processedStage raw) i →
        ((processedData raw).get ⟨i, hi⟩).time =
          ((processedData raw).get ⟨j, hj⟩).time →
        ((processedData raw).get ⟨i, hi⟩).time = "") →
      ((processedData raw).get ⟨i, hi⟩).displayDate ≠
        ((processedData raw).get ⟨j, hj⟩).displayDate) := by
  have hchar : ∀ i, (processedData raw)[i]? =
      ((processedStage raw)[i]?).map
        (fun x => decorate x (occTo (processedStage raw) i)) := by
    intro i
    rw [processedData_eq, labelPass_getElem?]
    simp
  refine ⟨hchar, ?_⟩
  intro i j hi hj hij hday htime
  have hlen : (processedData raw).length = (processedStage raw).length := by
    rw [processedData_eq, labelPass_length]
  have hi' : i < (processedStage raw).length := by omega
  have hj' : j < (processedStage raw).length := by omega
  have hgi : (processedData raw).get ⟨i, hi⟩ =
      decorate ((processedStage raw).get ⟨i, hi'⟩) (occTo (processedStage raw) i) := by
    have h1 := hchar i
    have h2 : (processedData raw)[i]? = some ((processedData raw).get ⟨i, hi⟩) := by
      rw [List.getElem?_eq_getElem hi]; simp
    have h3 : (processedStage raw)[i]? = some ((processedStage raw).get ⟨i, hi'⟩) := by
      rw [List.getElem?_eq_getElem hi']; simp
    rw [h2, h3] at h1
    simpa using h1
  have hgj : (processedData raw).get ⟨j, hj⟩ =
      decorate ((processedStage raw).get ⟨j, hj'⟩) (occTo (processedStage raw) j) := by
    have h1 := hchar j
    have h2 : (processedData raw)[j]? = some ((processedData raw).get ⟨j, hj⟩) := by
      rw [List.getElem?_eq_getElem hj]; simp
    have h3 : (processedStage raw)[j]? = some ((processedStage raw).get ⟨j, hj'⟩) := by
      rw [List.getElem?_eq_getElem hj']; simp
    rw [h2, h3] at h1
    simpa using h1
  have hday' : ((processedStage raw).get ⟨i, hi'⟩).dateStr =
      ((processedStage raw).get ⟨j, hj'⟩).dateStr := by
    rw [hgi, hgj, decorate_dateStr, decorate_dateStr] at hday
    exact hday
  have hk1 : 1 ≤ occTo (processedStage raw) i := occTo_pos _ i hi'
  have hk12 : occTo (processedStage raw) i < occTo (processedStage raw) j :=
    occTo_lt_occTo _ i j hi' hj' hij hday'
  have ht' : 1 < occTo (processedStage raw) i →
      ((processedStage raw).get ⟨i, hi'⟩).time ≠ "" →
      ((processedStage raw).get ⟨i, hi'⟩).time =
        ((processedStage raw).get ⟨j, hj'⟩).time → False := by
    intro ho hne heq
    have h4 := htime ho (by rw [hgi, hgj, decorate_time, decorate_time]; exact heq)
    rw [hgi, decorate_time] at h4
    exact hne h4
  have hne := decorate_displayDate_ne _ _ hday' hk1 hk12 ht'
  rw [hgi, hgj]
  exact hne

/-- Witness for C2's amended theorem: at the scenario input, the two
same-day readings get distinct display labels. -/
theorem C2_display_labels_witness :
    ((processedData sampleRows).get ⟨0, by decide⟩).displayDate ≠
      ((processedData sampleRows).get ⟨1, by decide⟩).displayDate :=
  (C2_display_labels sampleRows).2 0 1 (by decide) (by decide) (by decide)
    (by decide) (fun ho _ => absurd ho (by decide))

/-- C4: per-group statistics.  For each group over nonempty membership the
reported average is the arithmetic mean of the members' sugar levels
rounded to one decimal (`toFixed1`), the reported max/min are unrounded
extrema of the membership, and count is the group size; every empty group
(all three when the normalized collection is empty) reports the
not-available sentinel (`none`) for average, max and min with count 0. -/
theorem C4_group_statistics (raw : List RawRow) :
    ((stats raw).overall.count = (processedData raw).length ∧
      (processedData raw ≠ [] →
        (stats raw).overall.avg = some (toFixed1
          (((processedData raw).map (fun d => d.sugarLevel)).sum /
            ((processedData raw).length : ℚ))) ∧
        (∃ M, (stats raw).overall.max = some M ∧
          M ∈ (processedData raw).map (fun d => d.sugarLevel) ∧
          ∀ x ∈ (processedData raw).map (fun d => d.sugarLevel), x ≤ M) ∧
        (∃ m, (stats raw).overall.min = some m ∧
          m ∈ (processedData raw).map (fun d => d.sugarLevel) ∧
          ∀ x ∈ (processedData raw).map (fun d => d.sugarLevel), m ≤ x)) ∧
      (processedData raw = [] → (stats raw).overall = ⟨none, none, none, 0⟩)) ∧
    ((stats raw).fasting.count = (fastingData raw).length ∧
      (fastingData raw ≠ [] →
        (stats raw).fasting.avg = some (toFixed1
          (((fastingData raw).map (fun d => d.sugarLevel)).sum /
            ((fastingData raw).length : ℚ))) ∧
        (∃ M, (stats raw).fasting.max = some M ∧
          M ∈ (fastingData raw).map (fun d => d.sugarLevel) ∧
          ∀ x ∈ (fastingData raw).map (fun d => d.sugarLevel), x ≤ M) ∧
        (∃ m, (stats raw).fasting.min = some m ∧
          m ∈ (fastingData raw).map (fun d => d.sugarLevel) ∧
          ∀ x ∈ (fastingData raw).map (fun d => d.sugarLevel), m ≤ x)) ∧
      (fastingData raw = [] → (stats raw).fasting = ⟨none, none, none, 0⟩)) ∧
    ((stats raw).random.count = (randomData raw).length ∧
      (randomData raw ≠ [] →
        (stats raw).random.avg = some (toFixed1
          (((randomData raw).map (fun d => d.sugarLevel)).sum /
            ((randomData raw).length : ℚ))) ∧
        (∃ M, (stats raw).random.max = some M ∧
          M ∈ (randomData raw).map (fun d => d.sugarLevel) ∧
          ∀ x ∈ (randomData raw).map (fun d => d.sugarLevel), x ≤ M) ∧
        (∃ m, (stats raw).random.min = some m ∧
          m ∈ (randomData raw).map (fun d => d.sugarLevel) ∧
          ∀ x ∈ (randomData raw).map (fun d => d.sugarLevel), m ≤ x)) ∧
      (randomData raw = [] → (stats raw).random = ⟨none, none, none, 0⟩)) := by
  by_cases hpd : processedData raw = []
  · have h0 : (processedData raw).length = 0 := by simp [hpd]
    have hfe : fastingData raw = [] := by simp [fastingData, hpd]
    have hre : randomData raw = [] := by simp [randomData, hpd]
    refine ⟨⟨?_, fun hne => absurd hpd hne, fun _ => ?_⟩,
            ⟨?_, fun hne => absurd hfe hne, fun _ => ?_⟩,
            ⟨?_, fun hne => absurd hre hne, fun _ => ?_⟩⟩
    · simp [stats, h0, hpd]
    · simp [stats, h0]
    · simp [stats, h0, hfe]
    · simp [stats, h0]
    · simp [stats, h0, hre]
    · simp [stats, h0]
  · have hlen : ¬ (processedData raw).length = 0 := by
      simpa [List.length_eq_zero] using hpd
    have hmapne : (processedData raw).map (fun d => d.sugarLevel) ≠ [] := by
      simpa [List.map_eq_nil] using hpd
    refine ⟨⟨?_, fun _ => ⟨?_, ?_, ?_⟩, fun hc => absurd hc hpd⟩, ?_, ?_⟩
    · simp [stats, hlen]
    · simp only [stats, hlen, if_neg hlen]
      simp [jsSum_eq_sum]
    · refine ⟨jsMax ((processedData raw).map (fun d => d.sugarLevel)), ?_,
        jsMax_mem hmapne, fun x hx => le_jsMax hx⟩
      simp [stats, hlen]
    · refine ⟨jsMin ((processedData raw).map (fun d => d.sugarLevel)), ?_,
        jsMin_mem hmapne, fun x hx => jsMin_le hx⟩
      simp [stats, hlen]
    · by_cases hfe : fastingData raw = []
      · refine ⟨?_, fun hne => absurd hfe hne, fun _ => ?_⟩
        · simp [stats, hlen, hfe]
        · simp [stats, hlen, hfe]
      · have hfne : (fastingData raw).map (fun d => d.sugarLevel) ≠ [] := by
          simpa [List.map_eq_nil] using hfe
        have hflen : ¬ ((fastingData raw).map (fun d => d.sugarLevel)).length = 0 := by
          simpa [List.length_eq_zero] using hfne
        refine ⟨?_, fun _ => ⟨?_, ?_, ?_⟩, fun hc => absurd hc hfe⟩
        · simp [stats, hlen]
        · simp only [stats, hlen, if_neg hlen]
          simp [hflen, jsSum_eq_sum, hfe]
        · refine ⟨jsMax ((fastingData raw).map (fun d => d.sugarLevel)), ?_,
            jsMax_mem hfne, fun x hx => le_jsMax hx⟩
          simp [stats, hlen, hflen, hfe]
        · refine ⟨jsMin ((fastingData raw).map (fun d => d.sugarLevel)), ?_,
            jsMin_mem hfne, fun x hx => jsMin_le hx⟩
          simp [stats, hlen, hflen, hfe]
    · by_cases hre : randomData raw = []
      · refine ⟨?_, fun hne => absurd hre hne, fun _ => ?_⟩
        · simp [stats, hlen, hre]
        · simp [stats, hlen, hre]
      · have hrne : (randomData raw).map (fun d => d.sugarLevel) ≠ [] := by
          simpa [List.map_eq_nil] using hre
        have hrlen : ¬ ((randomData raw).map (fun d => d.sugarLevel)).length = 0 := by
          simpa [List.length_eq_zero] using hrne
        refine ⟨?_, fun _ => ⟨?_, ?_, ?_⟩, fun hc => absurd hc hre⟩
        · simp [stats, hlen]
        · simp only [stats, hlen, if_neg hlen]
          simp [hrlen, jsSum_eq_sum, hre]
        · refine ⟨jsMax ((randomData raw).map (fun d => d.sugarLevel)), ?_,
            jsMax_mem hrne, fun x hx => le_jsMax hx⟩
          simp [stats, hlen, hrlen, hre]
        · refine ⟨jsMin ((randomData raw).map (fun d => d.sugarLevel)), ?_,
            jsMin_mem hrne, fun x hx => jsMin_le hx⟩
          simp [stats, hlen, hrlen, hre]

end Dashboard
